import Mathlib

/-!
Shallow embedding of the session-lock subsystem of tmux-yule-log
(Go sources: internal/lock/password.go, internal/lock/input.go,
internal/lock/socket.go, internal/lock/state.go, main.go `execLock`).

Go strings are modelled as `List Char`, byte slices as `List Nat`
(each element a byte value, < 256 where the Go type guarantees it).
The external Argon2id primitive (`golang.org/x/crypto/argon2.IDKey`)
is a parameter of every definition that calls it, since its code is
not part of this repository.
-/


/-- Go `strings.Split(s, sep)` for a single-character separator.
`Split` always returns at least one element; splitting the empty
string yields `[""]`. -/
def stringsSplit (sep : Char) : List Char → List (List Char)
  | [] => [[]]
  | c :: rest =>
    match stringsSplit sep rest with
    | [] => [[c]]
    | f :: fs => if c = sep then [] :: f :: fs else (c :: f) :: fs

/-- The base64 standard alphabet used by Go's `base64.RawStdEncoding`
("ABCDEFGHIJKLMNOPQRSTUVWXYZabcdefghijklmnopqrstuvwxyz0123456789+/"). -/
def b64Alphabet : List Char :=
  ['A','B','C','D','E','F','G','H','I','J','K','L','M','N','O','P',
   'Q','R','S','T','U','V','W','X','Y','Z',
   'a','b','c','d','e','f','g','h','i','j','k','l','m','n','o','p',
   'q','r','s','t','u','v','w','x','y','z',
   '0','1','2','3','4','5','6','7','8','9','+','/']

/-- Base64 digit value `n` (< 64) to its alphabet character. -/
def b64Char (n : Nat) : Char := b64Alphabet.getD n 'A'

/-- Inverse lookup of a character in the base64 alphabet
(`none` for a character outside the alphabet, such as `=` which
`RawStdEncoding` does not accept). -/
def b64CharVal (c : Char) : Option Nat :=
  b64Alphabet.findIdx? (fun a => a = c)

/-- Go `base64.RawStdEncoding.EncodeToString`: 3 input bytes become
4 characters; a 2-byte remainder becomes 3 characters and a 1-byte
remainder 2 characters (no padding). Mirrors the shifts of
`encoding/base64.Encoding.Encode`. -/
def rawStdEncode : List Nat → List Char
  | b0 :: b1 :: b2 :: rest =>
    let val := b0 * 65536 + b1 * 256 + b2
    b64Char (val / 262144 % 64) :: b64Char (val / 4096 % 64) ::
      b64Char (val / 64 % 64) :: b64Char (val % 64) :: rawStdEncode rest
  | [b0, b1] =>
    let val := b0 * 65536 + b1 * 256
    [b64Char (val / 262144 % 64), b64Char (val / 4096 % 64), b64Char (val / 64 % 64)]
  | [b0] =>
    let val := b0 * 65536
    [b64Char (val / 262144 % 64), b64Char (val / 4096 % 64)]
  | [] => []

/-- Core of Go `base64.RawStdEncoding.DecodeString` after newline
skipping: quanta of 4 characters give 3 bytes; a final quantum of 3
characters gives 2 bytes, of 2 characters 1 byte; a trailing single
character (length ≡ 1 mod 4) is an error, as is any character outside
the alphabet. Trailing bits beyond the decoded bytes are ignored
(Go's non-Strict behaviour). -/
def rawStdDecodeCore : List Char → Option (List Nat)
  | [] => some []
  | [_] => none
  | [c0, c1] => do
    let d0 ← b64CharVal c0
    let d1 ← b64CharVal c1
    let val := d0 * 262144 + d1 * 4096
    pure [val / 65536]
  | [c0, c1, c2] => do
    let d0 ← b64CharVal c0
    let d1 ← b64CharVal c1
    let d2 ← b64CharVal c2
    let val := d0 * 262144 + d1 * 4096 + d2 * 64
    pure [val / 65536, val / 256 % 256]
  | c0 :: c1 :: c2 :: c3 :: rest => do
    let d0 ← b64CharVal c0
    let d1 ← b64CharVal c1
    let d2 ← b64CharVal c2
    let d3 ← b64CharVal c3
    let val := d0 * 262144 + d1 * 4096 + d2 * 64 + d3
    let tail ← rawStdDecodeCore rest
    pure (val / 65536 :: val / 256 % 256 :: val % 256 :: tail)

/-- Go `base64.RawStdEncoding.DecodeString`: newline characters
(`\r`, `\n`) are skipped, then quanta are decoded. -/
def rawStdDecode (s : List Char) : Option (List Nat) :=
  rawStdDecodeCore (s.filter (fun c => !(c == '\r') && !(c == '\n')))

/-- Go `subtle.ConstantTimeCompare`: 0 when lengths differ, otherwise
1 exactly when the OR of all byte XORs is zero. -/
def constantTimeCompare (x y : List Nat) : Nat :=
  if x.length ≠ y.length then 0
  else if (List.zip x y).foldl (fun acc p => acc ||| (p.1 ^^^ p.2)) 0 = 0 then 1 else 0

/-! ## Credential Store (internal/lock/password.go) -/

/-- Argon2id cost constants of password.go (`argon2Time`, `argon2Memory`,
`argon2Threads`, `argon2KeyLen`, `saltLen`); `argon2.Version` is 19. -/
def argon2Time : Nat := 2

def argon2Memory : Nat := 19456

def argon2Threads : Nat := 1

def argon2KeyLen : Nat := 32

def saltLen : Nat := 16

/-- The type of the external `argon2.IDKey(password, salt, time, memory,
threads, keyLen)` primitive, a parameter of the embedding. -/
abbrev IDKeyFun := List Nat → List Nat → Nat → Nat → Nat → Nat → List Nat

/-- Errors a password verification can produce. `invalidFormat` is
`ErrInvalidFormat`; `saltDecode` / `hashDecode` model the wrapped base64
errors returned by `fmt.Errorf("decoding salt: %w", err)` and
`fmt.Errorf("decoding hash: %w", err)`, which are distinct error values
from `ErrInvalidFormat`. -/
inductive PwError
  | invalidFormat
  | saltDecode
  | hashDecode
deriving DecidableEq, Repr

instance {e a : Type} [DecidableEq e] [DecidableEq a] : DecidableEq (Except e a) := fun x y =>
  match x, y with
  | .error u, .error v => decidable_of_iff (u = v) (by simp)
  | .ok u, .ok v => decidable_of_iff (u = v) (by simp)
  | .error _, .ok _ => isFalse (by simp)
  | .ok _, .error _ => isFalse (by simp)

/-- Field 1 of the PHC encoding: "argon2id". -/
def argon2idTag : List Char := ['a','r','g','o','n','2','i','d']

/-- Field 2 of the PHC encoding produced by `HashPassword`: "v=19"
(`argon2.Version` is 19). -/
def versionField : List Char := ['v','=','1','9']

/-- Field 3 of the PHC encoding produced by `HashPassword`:
"m=19456,t=2,p=1" (the Sprintf of the cost constants). -/
def costField : List Char :=
  ['m','=','1','9','4','5','6',',','t','=','2',',','p','=','1']

/-- Function `parseEncodedHash` of password.go: split on `$`, require exactly 6
fields, field 1 must be "argon2id", fields 4 and 5 must decode as raw
base64 (salt and hash). Fields 2 (version) and 3 (cost parameters) are
not inspected. -/
def parseEncodedHash (encoded : List Char) : Except PwError (List Nat × List Nat) :=
  let parts := stringsSplit '$' encoded
  if parts.length ≠ 6 then .error .invalidFormat
  else if parts.getD 1 [] ≠ argon2idTag then .error .invalidFormat
  else
    match rawStdDecode (parts.getD 4 []) with
    | none => .error .saltDecode
    | some salt =>
      match rawStdDecode (parts.getD 5 []) with
      | none => .error .hashDecode
      | some hash => .ok (salt, hash)

/-- Function `VerifyPassword` of password.go: parse, then recompute
`argon2.IDKey(password, salt, argon2Time, argon2Memory, argon2Threads,
argon2KeyLen)` with the package constants and the stored salt, and
compare with `subtle.ConstantTimeCompare`. Go's `(bool, error)` pair is
modelled as `Except PwError Bool`. -/
def VerifyPassword (idKey : IDKeyFun) (password : List Nat) (encoded : List Char) :
    Except PwError Bool :=
  match parseEncodedHash encoded with
  | .error e => .error e
  | .ok (salt, storedHash) =>
    let computedHash := idKey password salt argon2Time argon2Memory argon2Threads argon2KeyLen
    .ok (constantTimeCompare storedHash computedHash == 1)

/-- Function `HashPassword` of password.go, with the randomly drawn salt made an
explicit argument: hash with the cost constants, then serialize with
`fmt.Sprintf("$argon2id$v=%d$m=%d,t=%d,p=%d$%s$%s", argon2.Version,
argon2Memory, argon2Time, argon2Threads, saltB64, hashB64)`; with the
constants folded in, the prefix is `$argon2id$v=19$m=19456,t=2,p=1$`. -/
def HashPassword (idKey : IDKeyFun) (password salt : List Nat) : List Char :=
  let hash := idKey password salt argon2Time argon2Memory argon2Threads argon2KeyLen
  let saltB64 := rawStdEncode salt
  let hashB64 := rawStdEncode hash
  '$' :: argon2idTag ++ '$' :: versionField ++ '$' :: costField ++
    '$' :: saltB64 ++ '$' :: hashB64

/-- Decimal digit-string parser (helper for the spec-side reading of the
cost-parameter field). -/
def parseDecimal : List Char → Option Nat
  | [] => none
  | s => s.foldl (fun acc c =>
      match acc with
      | none => none
      | some n => if c.isDigit then some (n * 10 + (c.toNat - 48)) else none)
      (some 0)

/-- Parse one `key=value` item of the cost field, checking the key
character. Helper for the spec-side reading of the cost field. -/
def parseCostItem (key : Char) : List Char → Option Nat
  | k :: eq :: rest => if k = key ∧ eq = '=' then parseDecimal rest else none
  | _ => none

/-- Parse the cost-parameter field "m=..,t=..,p=.." into
(memory, time, threads). Helper for the spec-side verifier. -/
def parseCostField (s : List Char) : Option (Nat × Nat × Nat) :=
  match stringsSplit ',' s with
  | [mf, tf, pf] => do
    let m ← parseCostItem 'm' mf
    let t ← parseCostItem 't' tf
    let p ← parseCostItem 'p' pf
    pure (m, t, p)
  | _ => none

/-- Modelled from the spec's words (§4.1: "recomputes the hash with the
*stored* cost parameters and salt"): a verifier that, unlike the code's
`VerifyPassword`, reads the iteration count, memory cost and
parallelism out of field 3 of the encoded string and feeds those to the
hash primitive. Used only to compare against the code's behaviour. -/
def VerifyPasswordStoredParams (idKey : IDKeyFun) (password : List Nat)
    (encoded : List Char) : Except PwError Bool :=
  match parseEncodedHash encoded with
  | .error e => .error e
  | .ok (salt, storedHash) =>
    match parseCostField ((stringsSplit '$' encoded).getD 3 []) with
    | none => .error .invalidFormat
    | some (m, t, p) =>
      let computedHash := idKey password salt t m p argon2KeyLen
      .ok (constantTimeCompare storedHash computedHash == 1)

/-- A concrete stand-in for the external Argon2id primitive, used to
instantiate hypotheses of theorems at concrete inputs. -/
def sampleIdKey : IDKeyFun := fun password salt time memory threads keyLen =>
  [(password.length + salt.length + time + memory + threads + keyLen) % 256]

/-- A hash primitive whose output depends on the cost parameters, as the
real Argon2id does. -/
def paramIdKey : IDKeyFun := fun _ _ time memory threads _ =>
  [time % 256, memory % 256, threads % 256]

/-- An encoded credential whose stored cost-parameter field
"m=8,t=1,p=1" differs from the compile-time constants, with the stored
hash derived under those stored parameters. -/
def cexCostField : List Char := ['m','=','8',',','t','=','1',',','p','=','1']

def cexEncoded : List Char :=
  '$' :: argon2idTag ++ '$' :: versionField ++ '$' :: cexCostField ++
    '$' :: rawStdEncode [1, 2, 3] ++ '$' :: rawStdEncode [1, 8, 1]

/-- A 6-field encoding with a good tag but non-base64 salt field. -/
def badSaltEnc : List Char :=
  '$' :: argon2idTag ++ '$' :: versionField ++ '$' :: costField ++
    '$' :: ['!','!','!'] ++ '$' :: rawStdEncode [1]

/-- A 6-field encoding with a good tag, valid salt, non-base64 hash. -/
def badHashEnc : List Char :=
  '$' :: argon2idTag ++ '$' :: versionField ++ '$' :: costField ++
    '$' :: rawStdEncode [1] ++ '$' :: ['!']

/-- A 6-field encoding whose algorithm tag is "bcrypt". -/
def wrongTagEnc : List Char :=
  '$' :: ['b','c','r','y','p','t'] ++ '$' :: versionField ++ '$' :: costField ++
    '$' :: rawStdEncode [1] ++ '$' :: rawStdEncode [2]

/-! ## Secure Input Buffer (internal/lock/input.go) -/

/-- Arrow-key markers: NUL followed by one control byte (SOH/STX/ETX/EOT). -/
def ArrowUpMarker : List Nat := [0, 1]

def ArrowDownMarker : List Nat := [0, 2]

def ArrowLeftMarker : List Nat := [0, 3]

def ArrowRightMarker : List Nat := [0, 4]

/-- Function `IsArrowMarkerSuffix` of input.go: true and remove-length 2 when the
last two bytes form an arrow marker, false and remove-length 1
otherwise (including buffers shorter than 2 bytes). -/
def IsArrowMarkerSuffix (data : List Nat) : Bool × Nat :=
  if data.length < 2 then (false, 1)
  else
    let last2 := data.drop (data.length - 2)
    if last2 = ArrowUpMarker ∨ last2 = ArrowDownMarker ∨
        last2 = ArrowLeftMarker ∨ last2 = ArrowRightMarker then (true, 2)
    else (false, 1)

/-- Go `utf8.EncodeRune`: 1 byte below U+0080, 2 below U+0800, 3 below
U+10000 (with surrogates replaced by U+FFFD), 4 up to U+10FFFF, and
U+FFFD for out-of-range values. -/
def utf8EncodeRune (r : Nat) : List Nat :=
  if r < 128 then [r]
  else if r < 2048 then [192 + r / 64, 128 + r % 64]
  else if 55296 ≤ r ∧ r < 57344 then [239, 191, 189]
  else if 1114111 < r then [239, 191, 189]
  else if r < 65536 then [224 + r / 4096, 128 + r / 64 % 64, 128 + r % 64]
  else [240 + r / 262144, 128 + r / 4096 % 64, 128 + r / 64 % 64, 128 + r % 64]

/-- The secure input buffer. Go holds a slice `data []byte` over a
backing array; `storage` models the cells of the backing array that have
been written so far and `len` the current slice length, so truncation
(`data = data[:k]`) only lowers `len` and leaves `storage` intact,
exactly as Go slicing leaves the backing array intact. The memguard
enclave field is unused by the modelled operations. -/
structure SecureBuffer where
  storage : List Nat
  len : Nat
deriving DecidableEq, Repr

/-- Constructor `NewSecureBuffer`: `make([]byte, 0, 256)` — empty slice (the backing
array is zero-initialised; `storage` tracks only written cells). -/
def NewSecureBuffer : SecureBuffer := ⟨[], 0⟩

/-- Overwrite cells of `st` starting at position `i` with `bs`,
extending the array when the write runs past its end. -/
def writeAt (st : List Nat) (i : Nat) (bs : List Nat) : List Nat :=
  st.take i ++ bs ++ st.drop (i + bs.length)

/-- The live slice `sb.data` of the Go buffer. -/
def SecureBuffer.Bytes (sb : SecureBuffer) : List Nat := sb.storage.take sb.len

/-- Method `Append`: `sb.data = append(sb.data, data...)` writes the new bytes
at positions `len.. ` of the backing array. -/
def SecureBuffer.Append (sb : SecureBuffer) (data : List Nat) : SecureBuffer :=
  ⟨writeAt sb.storage sb.len data, sb.len + data.length⟩

/-- Method `AppendRune`: UTF-8-encode then append. -/
def SecureBuffer.AppendRune (sb : SecureBuffer) (r : Nat) : SecureBuffer :=
  sb.Append (utf8EncodeRune r)

/-- Method `AppendString`: append the string's bytes. -/
def SecureBuffer.AppendString (sb : SecureBuffer) (s : List Nat) : SecureBuffer :=
  sb.Append s

/-- Method `Backspace` of input.go: no-op returning false on an empty buffer;
otherwise truncate by 2 bytes when the last two bytes are an arrow
marker, else by 1 byte, returning true. -/
def SecureBuffer.Backspace (sb : SecureBuffer) : SecureBuffer × Bool :=
  if sb.len = 0 then (sb, false)
  else
    let p := IsArrowMarkerSuffix sb.Bytes
    if p.1 then ({ sb with len := sb.len - p.2 }, true)
    else ({ sb with len := sb.len - 1 }, true)

/-- Method `Clear` of input.go: its loop `for i := range sb.data` sets
each byte of the live slice to 0, then `sb.data = sb.data[:0]`
truncates; bytes of the backing array beyond `len` are not touched. -/
def SecureBuffer.Clear (sb : SecureBuffer) : SecureBuffer :=
  ⟨writeAt sb.storage 0 (List.replicate sb.len 0), 0⟩

/-- The operations the password-entry session performs on the buffer
(`handleKeyLock` of main.go): append a typed rune, append a string,
append one of the four arrow markers, backspace. -/
inductive BufOp
  | rune (r : Nat)
  | str (s : List Nat)
  | arrow (k : Fin 4)
  | backspace
deriving DecidableEq, Repr

def arrowMarker : Fin 4 → List Nat
  | 0 => ArrowUpMarker
  | 1 => ArrowDownMarker
  | 2 => ArrowLeftMarker
  | 3 => ArrowRightMarker

def applyOp (sb : SecureBuffer) : BufOp → SecureBuffer
  | .rune r => sb.AppendRune r
  | .str s => sb.AppendString s
  | .arrow k => sb.AppendString (arrowMarker k)
  | .backspace => sb.Backspace.1

/-- Run a sequence of operations from a fresh buffer. -/
def runOps (ops : List BufOp) : SecureBuffer := ops.foldl applyOp NewSecureBuffer

/-- Iterated backspace. -/
def backspaceN : Nat → SecureBuffer → SecureBuffer
  | 0, sb => sb
  | n + 1, sb => backspaceN n sb.Backspace.1

/-! ## Socket Guard (internal/lock/socket.go) -/

/-- Socket-guard errors: `ErrNoTmuxSocket`, `ErrInvalidTmuxSocket`,
`ErrSocketNotFound`. -/
inductive SockError
  | noTmuxSocket
  | invalidTmuxSocket
  | socketNotFound
deriving DecidableEq, Repr

/-- Go `os.Getenv`: an unset variable and a variable set to the empty
string both read as `""`. The environment value is `Option (List Char)`
with `none` = unset. -/
def osGetenv (v : Option (List Char)) : List Char := v.getD []

/-- Function `GetTmuxSocketPath` of socket.go: read `$TMUX`; error
`ErrNoTmuxSocket` when it reads as empty; split on commas and error
`ErrInvalidTmuxSocket` when the first field is empty; otherwise return
the first field. -/
def GetTmuxSocketPath (tmuxVar : Option (List Char)) : Except SockError (List Char) :=
  let tmuxEnv := osGetenv tmuxVar
  if tmuxEnv = [] then .error .noTmuxSocket
  else
    let parts := stringsSplit ',' tmuxEnv
    if parts.length < 1 ∨ parts.getD 0 [] = [] then .error .invalidTmuxSocket
    else .ok (parts.getD 0 [])

/-! ## Lock State Ledger (internal/lock/state.go) -/

/-- The `State` struct of state.go: `Locked`, `LockedAt` (a timestamp,
modelled as `Nat`), `SocketPath`, `SocketPerm`. -/
structure LockState where
  locked : Bool
  lockedAt : Nat
  socketPath : List Char
  socketPerm : Nat
deriving DecidableEq, Repr

/-- How an attempt to read the lock-state file can turn out:
the XDG path resolution fails; the file is absent (`os.IsNotExist`);
reading fails for another reason; or reading yields contents. -/
inductive FileRead
  | pathError
  | absent
  | readError
  | contents (s : List Char)
deriving DecidableEq, Repr

/-- Errors of `LoadState`: path resolution, `ErrNotLocked` for an absent
file, a wrapped read error, a wrapped `json.Unmarshal` error. -/
inductive LoadError
  | pathErr
  | notLocked
  | readErr
  | parseErr
deriving DecidableEq, Repr

/-- Function `LoadState` of state.go, parameterised by the JSON decoder
(`json.Unmarshal` into `State`, external to the repository): resolve the
path, read the file (absence = `ErrNotLocked`), parse. -/
def LoadState (parse : List Char → Option LockState) (f : FileRead) :
    Except LoadError LockState :=
  match f with
  | .pathError => .error .pathErr
  | .absent => .error .notLocked
  | .readError => .error .readErr
  | .contents s =>
    match parse s with
    | none => .error .parseErr
    | some st => .ok st

/-- Function `IsLocked` of state.go: any `LoadState` error reads as "not
locked"; otherwise the record's `Locked` flag. -/
def IsLocked (parse : List Char → Option LockState) (f : FileRead) : Bool :=
  match LoadState parse f with
  | .error _ => false
  | .ok st => st.locked

/-! ## Lock Session Controller (main.go execLock) -/

/-- The externally visible filesystem state the controller manipulates:
the tmux socket's permission bits and the lock-state (ledger) record. -/
structure World where
  socketExists : Bool
  socketMode : Nat
  ledger : Option LockState
deriving DecidableEq, Repr

/-- Outcomes of the fallible external calls `execLock` makes, fixed up
front so a run is a pure function: whether a credential is configured,
the `$TMUX` value, whether each chmod / ledger write / ledger remove
fails, whether the locked render session ends in an error, and the
clock reading for `time.Now()`. -/
structure SysOracle where
  passwordExists : Bool
  tmuxEnv : Option (List Char)
  chmodRestrictFails : Bool
  ledgerWriteFails : Bool
  chmodRestoreFails : Bool
  ledgerRemoveFails : Bool
  screensaverFails : Bool
  now : Nat
deriving DecidableEq, Repr

/-- Controller-level errors (`fmt.Errorf` wrappers of execLock). -/
inductive CtlError
  | noPassword
  | notInTmux
  | envError
  | socketNotFound
  | restrictFailed
  | lockStateFailed
  | screensaverErr
deriving DecidableEq, Repr

/-- A successful state-changing effect, in execution order. -/
inductive Effect
  | chmod (path : List Char) (mode : Nat)
  | ledgerWrite (st : LockState)
  | ledgerRemove
deriving DecidableEq, Repr

/-- Function `RestrictSocket` of socket.go: capture the current permission via
`GetSocketPermissions` (stat), then chmod to 0, returning the original
permission. -/
def RestrictSocket (path : List Char) (o : SysOracle) (w : World) :
    Except CtlError (Nat × World × List Effect) :=
  if ¬ w.socketExists then .error .socketNotFound
  else if o.chmodRestrictFails then .error .restrictFailed
  else .ok (w.socketMode, { w with socketMode := 0 }, [.chmod path 0])

/-- Function `RestoreSocket` of socket.go: chmod back to the given permission. -/
def RestoreSocket (path : List Char) (perm : Nat) (o : SysOracle) (w : World) :
    Except CtlError (World × List Effect) :=
  if o.chmodRestoreFails then .error .restrictFailed
  else .ok ({ w with socketMode := perm }, [.chmod path perm])

/-- Function `lock.Lock` of state.go: build the `State` record and write it,
overwriting any prior record (the write is modelled as atomic: on
failure nothing is recorded). -/
def LedgerLock (path : List Char) (perm : Nat) (o : SysOracle) (w : World) :
    Except CtlError (World × List Effect) :=
  let st : LockState :=
    { locked := true, lockedAt := o.now, socketPath := path, socketPerm := perm }
  if o.ledgerWriteFails then .error .lockStateFailed
  else .ok ({ w with ledger := some st }, [.ledgerWrite st])

/-- Function `lock.Unlock` of state.go: remove the record file; absence is not an
error. -/
def LedgerUnlock (o : SysOracle) (w : World) : Except CtlError (World × List Effect) :=
  if o.ledgerRemoveFails ∧ w.ledger ≠ none then .error .lockStateFailed
  else .ok ({ w with ledger := none }, [.ledgerRemove])

/-- A deferred `lock.RestoreSocket(path, perm)` call: its return value
is discarded (`defer lock.RestoreSocket(...)`), so a failure leaves the
world unchanged. -/
def deferredRestore (path : List Char) (perm : Nat) (o : SysOracle) (w : World) :
    World × List Effect :=
  match RestoreSocket path perm o w with
  | .error _ => (w, [])
  | .ok r => r

/-- A deferred `lock.Unlock()` call: its return value is discarded. -/
def deferredUnlock (o : SysOracle) (w : World) : World × List Effect :=
  match LedgerUnlock o w with
  | .error _ => (w, [])
  | .ok r => r

/-- The render session `execScreensaver` (external to the lock core):
either returns nil after the correct password finally unlocks, or an
error. -/
def screensaverOutcome (o : SysOracle) : Except CtlError Unit :=
  if o.screensaverFails then .error .screensaverErr else .ok ()

/-- Function `execLock` of main.go, as a pure function from the oracle and the
initial world to (result, final world, ordered successful effects).
Mirrors the source: password/TMUX preconditions; when `SocketProtect`
is on, resolve the socket path, `RestrictSocket` (aborting on failure),
and register `defer RestoreSocket(socketPath, originalPerm)`; then
`lock.Lock` (on failure return, running the pending defer), and register
`defer lock.Unlock()`; run the render session; finally run the deferred
calls in Go's LIFO order — `lock.Unlock()` first, then
`lock.RestoreSocket(...)`. -/
def execLock (socketProtect : Bool) (o : SysOracle) (w : World) :
    Except CtlError Unit × World × List Effect :=
  if ¬ o.passwordExists then (.error .noPassword, w, [])
  else if osGetenv o.tmuxEnv = [] then (.error .notInTmux, w, [])
  else if socketProtect then
    match GetTmuxSocketPath o.tmuxEnv with
    | .error _ => (.error .envError, w, [])
    | .ok socketPath =>
      match RestrictSocket socketPath o w with
      | .error e => (.error e, w, [])
      | .ok (originalPerm, w1, t1) =>
        match LedgerLock socketPath originalPerm o w1 with
        | .error e =>
          let (w2, t2) := deferredRestore socketPath originalPerm o w1
          (.error e, w2, t1 ++ t2)
        | .ok (w2, t2) =>
          let res := screensaverOutcome o
          let (w3, t3) := deferredUnlock o w2
          let (w4, t4) := deferredRestore socketPath originalPerm o w3
          (res, w4, t1 ++ t2 ++ t3 ++ t4)
  else
    match LedgerLock [] 0 o w with
    | .error e => (.error e, w, [])
    | .ok (w1, t1) =>
      let res := screensaverOutcome o
      let (w2, t2) := deferredUnlock o w1
      (res, w2, t1 ++ t2)

/-- Does a `chmod path perm` (the restore) occur strictly before a
ledger-record removal in the effect trace, as the claimed release order
requires? -/
def restoreBeforeRemove (t : List Effect) (path : List Char) (perm : Nat) : Bool :=
  match t.findIdx? (fun e => e = Effect.chmod path perm),
      t.findIdx? (fun e => e = Effect.ledgerRemove) with
  | some i, some j => i < j
  | _, _ => false

/-- An all-successful oracle: credential configured, `TMUX=/s,1`, no
syscall failures, clock at 5. -/
def okOracle : SysOracle :=
  ⟨true, some ['/','s',',','1'], false, false, false, false, false, 5⟩

/-- A world with the socket present at mode 0o700 (448) and no ledger
record. -/
def baseWorld : World := ⟨true, 448, none⟩

/-- The oracle whose ledger write fails (everything else succeeds). -/
def writeFailOracle : SysOracle :=
  ⟨true, some ['/','s',',','1'], false, true, false, false, false, 5⟩

/-- A concrete stand-in for `json.Unmarshal` into `State`: recognises
exactly one contents string. -/
def sampleParse : List Char → Option LockState :=
  fun s => if s = ['x'] then some ⟨true, 0, [], 0⟩ else none

/-! ## Theorems -/

theorem stringsSplit_ne_nil (sep : Char) (s : List Char) : stringsSplit sep s ≠ [] := by
  cases s with
  | nil => simp [stringsSplit]
  | cons c rest =>
    simp only [stringsSplit]
    cases stringsSplit sep rest with
    | nil => simp
    | cons f fs =>
      by_cases h : c = sep <;> simp [h]

theorem stringsSplit_no_sep (sep : Char) (s : List Char) (h : sep ∉ s) :
    stringsSplit sep s = [s] := by
  induction s with
  | nil => rfl
  | cons c rest ih =>
    simp only [List.mem_cons, not_or] at h
    simp only [stringsSplit, ih h.2]
    have : ¬ c = sep := fun hc => h.1 hc.symm
    simp [this]

theorem stringsSplit_append (sep : Char) (xs ys : List Char) (h : sep ∉ xs) :
    stringsSplit sep (xs ++ sep :: ys) = xs :: stringsSplit sep ys := by
  induction xs with
  | nil =>
    simp only [List.nil_append, stringsSplit]
    cases hys : stringsSplit sep ys with
    | nil => exact absurd hys (stringsSplit_ne_nil sep ys)
    | cons f fs => simp
  | cons c rest ih =>
    simp only [List.mem_cons, not_or] at h
    simp only [List.cons_append, stringsSplit, List.append_eq]
    rw [ih h.2]
    have : ¬ c = sep := fun hc => h.1 hc.symm
    simp [this]

theorem b64CharVal_b64Char : ∀ n, n < 64 → b64CharVal (b64Char n) = some n := by decide

theorem b64Char_ne_dollar : ∀ n, n < 64 → b64Char n ≠ '$' := by decide

theorem b64Char_not_newline : ∀ n, n < 64 →
    (!(b64Char n == '\r') && !(b64Char n == '\n')) = true := by decide

theorem rawStdEncode_chars (bs : List Nat) :
    ∀ c ∈ rawStdEncode bs, ∃ n, n < 64 ∧ c = b64Char n := by
  induction bs using rawStdEncode.induct with
  | case1 b0 b1 b2 rest ih =>
    intro c hc
    simp only [rawStdEncode, List.mem_cons] at hc
    rcases hc with h | h | h | h | h
    · exact ⟨_, Nat.mod_lt _ (by norm_num), h⟩
    · exact ⟨_, Nat.mod_lt _ (by norm_num), h⟩
    · exact ⟨_, Nat.mod_lt _ (by norm_num), h⟩
    · exact ⟨_, Nat.mod_lt _ (by norm_num), h⟩
    · exact ih c h
  | case2 b0 b1 =>
    intro c hc
    simp only [rawStdEncode, List.mem_cons, List.not_mem_nil, or_false] at hc
    rcases hc with h | h | h <;> exact ⟨_, Nat.mod_lt _ (by norm_num), h⟩
  | case3 b0 =>
    intro c hc
    simp only [rawStdEncode, List.mem_cons, List.not_mem_nil, or_false] at hc
    rcases hc with h | h <;> exact ⟨_, Nat.mod_lt _ (by norm_num), h⟩
  | case4 =>
    intro c hc
    simp [rawStdEncode] at hc

theorem dollar_not_mem_rawStdEncode (bs : List Nat) : '$' ∉ rawStdEncode bs := by
  intro h
  obtain ⟨n, hn, hc⟩ := rawStdEncode_chars bs _ h
  exact b64Char_ne_dollar n hn hc.symm

theorem rawStdEncode_filter_newlines (bs : List Nat) :
    (rawStdEncode bs).filter (fun c => !(c == '\r') && !(c == '\n')) = rawStdEncode bs := by
  rw [List.filter_eq_self]
  intro c hc
  obtain ⟨n, hn, rfl⟩ := rawStdEncode_chars bs c hc
  exact b64Char_not_newline n hn

theorem rawStdDecodeCore_rawStdEncode (bs : List Nat) (h : ∀ b ∈ bs, b < 256) :
    rawStdDecodeCore (rawStdEncode bs) = some bs := by
  induction bs using rawStdEncode.induct with
  | case1 b0 b1 b2 rest ih =>
    have h0 : b0 < 256 := h b0 (by simp)
    have h1 : b1 < 256 := h b1 (by simp)
    have h2 : b2 < 256 := h b2 (by simp)
    have hrest : ∀ b ∈ rest, b < 256 := fun b hb => h b (by simp [hb])
    simp only [rawStdEncode, rawStdDecodeCore,
      b64CharVal_b64Char _ (Nat.mod_lt _ (by norm_num)), Option.bind_eq_bind,
      Option.some_bind, ih hrest]
    congr 1
    have hd : (b0 * 65536 + b1 * 256 + b2) / 262144 % 64 * 262144 +
        (b0 * 65536 + b1 * 256 + b2) / 4096 % 64 * 4096 +
        (b0 * 65536 + b1 * 256 + b2) / 64 % 64 * 64 +
        (b0 * 65536 + b1 * 256 + b2) % 64 = b0 * 65536 + b1 * 256 + b2 := by omega
    rw [hd]
    have e0 : (b0 * 65536 + b1 * 256 + b2) / 65536 = b0 := by omega
    have e1 : (b0 * 65536 + b1 * 256 + b2) / 256 % 256 = b1 := by omega
    have e2 : (b0 * 65536 + b1 * 256 + b2) % 256 = b2 := by omega
    rw [e0, e1, e2]
  | case2 b0 b1 =>
    have h0 : b0 < 256 := h b0 (by simp)
    have h1 : b1 < 256 := h b1 (by simp)
    simp only [rawStdEncode, rawStdDecodeCore,
      b64CharVal_b64Char _ (Nat.mod_lt _ (by norm_num)), Option.bind_eq_bind,
      Option.some_bind]
    congr 1
    have hd : (b0 * 65536 + b1 * 256) / 262144 % 64 * 262144 +
        (b0 * 65536 + b1 * 256) / 4096 % 64 * 4096 +
        (b0 * 65536 + b1 * 256) / 64 % 64 * 64 = b0 * 65536 + b1 * 256 - (b0 * 65536 + b1 * 256) % 64 := by
      omega
    have e0 : ((b0 * 65536 + b1 * 256) / 262144 % 64 * 262144 +
        (b0 * 65536 + b1 * 256) / 4096 % 64 * 4096 +
        (b0 * 65536 + b1 * 256) / 64 % 64 * 64) / 65536 = b0 := by omega
    have e1 : ((b0 * 65536 + b1 * 256) / 262144 % 64 * 262144 +
        (b0 * 65536 + b1 * 256) / 4096 % 64 * 4096 +
        (b0 * 65536 + b1 * 256) / 64 % 64 * 64) / 256 % 256 = b1 := by omega
    rw [e0, e1]
  | case3 b0 =>
    have h0 : b0 < 256 := h b0 (by simp)
    simp only [rawStdEncode, rawStdDecodeCore,
      b64CharVal_b64Char _ (Nat.mod_lt _ (by norm_num)), Option.bind_eq_bind,
      Option.some_bind]
    congr 1
    have e0 : (b0 * 65536 / 262144 % 64 * 262144 + b0 * 65536 / 4096 % 64 * 4096) / 65536 = b0 := by
      omega
    rw [e0]
  | case4 => rfl

/-- Round trip of Go base64: decoding an encoded byte string gives back
the bytes (for genuine byte values < 256). -/
theorem rawStdDecode_rawStdEncode (bs : List Nat) (h : ∀ b ∈ bs, b < 256) :
    rawStdDecode (rawStdEncode bs) = some bs := by
  rw [rawStdDecode, rawStdEncode_filter_newlines]
  exact rawStdDecodeCore_rawStdEncode bs h

theorem nat_lor_eq_zero_iff (a b : Nat) : a ||| b = 0 ↔ a = 0 ∧ b = 0 := by
  constructor
  · intro h
    constructor
    · apply Nat.eq_of_testBit_eq
      intro i
      have hb := congrArg (fun x => x.testBit i) h
      simp only [Nat.testBit_or, Nat.zero_testBit, Bool.or_eq_false_iff] at hb
      simp [hb.1]
    · apply Nat.eq_of_testBit_eq
      intro i
      have hb := congrArg (fun x => x.testBit i) h
      simp only [Nat.testBit_or, Nat.zero_testBit, Bool.or_eq_false_iff] at hb
      simp [hb.2]
  · rintro ⟨rfl, rfl⟩
    rfl

theorem foldl_lor_xor_eq_zero (l : List (Nat × Nat)) (a : Nat) :
    l.foldl (fun acc p => acc ||| (p.1 ^^^ p.2)) a = 0 ↔ a = 0 ∧ ∀ p ∈ l, p.1 = p.2 := by
  induction l generalizing a with
  | nil => simp
  | cons q l ih =>
    simp only [List.foldl_cons, ih, nat_lor_eq_zero_iff, Nat.xor_eq_zero, List.mem_cons]
    constructor
    · rintro ⟨⟨ha, hq⟩, hl⟩
      exact ⟨ha, fun p hp => by rcases hp with rfl | hp; exact hq; exact hl p hp⟩
    · rintro ⟨ha, hl⟩
      exact ⟨⟨ha, hl q (Or.inl rfl)⟩, fun p hp => hl p (Or.inr hp)⟩

theorem zip_pairs_eq (x y : List Nat) (h : x.length = y.length) :
    (∀ p ∈ List.zip x y, p.1 = p.2) ↔ x = y := by
  induction x generalizing y with
  | nil =>
    cases y with
    | nil => simp
    | cons b y => simp at h
  | cons a x ih =>
    cases y with
    | nil => simp at h
    | cons b y =>
      simp only [List.length_cons, Nat.succ_inj] at h
      simp only [List.zip_cons_cons, List.mem_cons, List.cons_eq_cons]
      constructor
      · intro hp
        refine ⟨hp (a, b) (Or.inl rfl), ?_⟩
        exact (ih y h).mp fun p hq => hp p (Or.inr hq)
      · rintro ⟨rfl, rfl⟩
        rintro p (rfl | hp)
        · rfl
        · exact ((ih x rfl).mpr rfl) p hp

/-- Go `subtle.ConstantTimeCompare` returns 1 exactly on equal byte
strings. -/
theorem constantTimeCompare_eq_one_iff (x y : List Nat) :
    constantTimeCompare x y = 1 ↔ x = y := by
  unfold constantTimeCompare
  by_cases hl : x.length = y.length
  · simp only [hl, ne_eq, not_true_eq_false, if_false]
    by_cases hz : (List.zip x y).foldl (fun acc p => acc ||| (p.1 ^^^ p.2)) 0 = 0
    · simp only [hz, if_true]
      rw [foldl_lor_xor_eq_zero] at hz
      simp [(zip_pairs_eq x y hl).mp hz.2]
    · simp only [hz, if_false]
      constructor
      · intro h01
        exact absurd h01 (by norm_num)
      · rintro rfl
        exact absurd ((foldl_lor_xor_eq_zero _ _).mpr
          ⟨rfl, (zip_pairs_eq x x rfl).mpr rfl⟩) hz
  · have hne : x ≠ y := fun hxy => hl (by rw [hxy])
    simp [hl, hne]

theorem HashPassword_shape (idKey : IDKeyFun) (p salt : List Nat) :
    HashPassword idKey p salt =
      [] ++ '$' :: (argon2idTag ++ '$' :: (versionField ++ '$' :: (costField ++
        '$' :: (rawStdEncode salt ++ '$' ::
          rawStdEncode (idKey p salt argon2Time argon2Memory argon2Threads argon2KeyLen))))) := by
  simp [HashPassword]

theorem stringsSplit_HashPassword (idKey : IDKeyFun) (p salt : List Nat) :
    stringsSplit '$' (HashPassword idKey p salt) =
      [[], argon2idTag, versionField, costField, rawStdEncode salt,
        rawStdEncode (idKey p salt argon2Time argon2Memory argon2Threads argon2KeyLen)] := by
  rw [HashPassword_shape,
    stringsSplit_append '$' [] _ (by simp),
    stringsSplit_append '$' argon2idTag _ (by decide),
    stringsSplit_append '$' versionField _ (by decide),
    stringsSplit_append '$' costField _ (by decide),
    stringsSplit_append '$' (rawStdEncode salt) _ (dollar_not_mem_rawStdEncode salt),
    stringsSplit_no_sep '$' _ (dollar_not_mem_rawStdEncode _)]

/-- Every string `HashPassword` produces survives `parseEncodedHash`,
yielding back exactly the salt and the derived hash. -/
theorem parseEncodedHash_HashPassword (idKey : IDKeyFun) (p salt : List Nat)
    (hs : ∀ b ∈ salt, b < 256)
    (hh : ∀ b ∈ idKey p salt argon2Time argon2Memory argon2Threads argon2KeyLen, b < 256) :
    parseEncodedHash (HashPassword idKey p salt) =
      .ok (salt, idKey p salt argon2Time argon2Memory argon2Threads argon2KeyLen) := by
  rw [parseEncodedHash, stringsSplit_HashPassword]
  simp only [List.length_cons, List.length_nil, List.getD_cons_succ, List.getD_cons_zero]
  norm_num
  rw [rawStdDecode_rawStdEncode salt hs, rawStdDecode_rawStdEncode _ hh]

/-- C6: for every password and every salt the hashing step may draw
(any byte string, covering the 16 random bytes drawn by `rand.Read`),
verifying the password against the encoding `HashPassword` produced
succeeds with no error, for any hash primitive producing byte output. -/
theorem VerifyPassword_HashPassword_roundtrip (idKey : IDKeyFun) (p salt : List Nat)
    (hs : ∀ b ∈ salt, b < 256)
    (hh : ∀ b ∈ idKey p salt argon2Time argon2Memory argon2Threads argon2KeyLen, b < 256) :
    VerifyPassword idKey p (HashPassword idKey p salt) = .ok true := by
  unfold VerifyPassword
  rw [parseEncodedHash_HashPassword idKey p salt hs hh]
  have h1 : constantTimeCompare
      (idKey p salt argon2Time argon2Memory argon2Threads argon2KeyLen)
      (idKey p salt argon2Time argon2Memory argon2Threads argon2KeyLen) = 1 :=
    (constantTimeCompare_eq_one_iff _ _).mpr rfl
  simp [h1]

/-- Witness for C6 at a concrete password, salt and hash primitive. -/
theorem VerifyPassword_HashPassword_roundtrip_witness :
    VerifyPassword sampleIdKey [104, 105]
      (HashPassword sampleIdKey [104, 105] [0, 255, 7]) = .ok true :=
  VerifyPassword_HashPassword_roundtrip sampleIdKey [104, 105] [0, 255, 7]
    (by decide) (by decide)

/-- C10: the encoding produced by `HashPassword` always parses: it has
exactly six `$`-delimited fields, its tag field is "argon2id", its salt
and hash fields are valid base64 decoding back to the salt and derived
hash, and `VerifyPassword` of any password against it never errors. -/
theorem HashPassword_output_parses (idKey : IDKeyFun) (p salt : List Nat)
    (hs : ∀ b ∈ salt, b < 256)
    (hh : ∀ b ∈ idKey p salt argon2Time argon2Memory argon2Threads argon2KeyLen, b < 256) :
    (stringsSplit '$' (HashPassword idKey p salt)).length = 6 ∧
    (stringsSplit '$' (HashPassword idKey p salt)).getD 1 [] = argon2idTag ∧
    rawStdDecode ((stringsSplit '$' (HashPassword idKey p salt)).getD 4 []) = some salt ∧
    rawStdDecode ((stringsSplit '$' (HashPassword idKey p salt)).getD 5 []) =
      some (idKey p salt argon2Time argon2Memory argon2Threads argon2KeyLen) ∧
    ∀ q : List Nat, ∃ b, VerifyPassword idKey q (HashPassword idKey p salt) = .ok b := by
  refine ⟨?_, ?_, ?_, ?_, ?_⟩
  · rw [stringsSplit_HashPassword]; rfl
  · rw [stringsSplit_HashPassword]; rfl
  · rw [stringsSplit_HashPassword]
    exact rawStdDecode_rawStdEncode salt hs
  · rw [stringsSplit_HashPassword]
    exact rawStdDecode_rawStdEncode _ hh
  · intro q
    unfold VerifyPassword
    rw [parseEncodedHash_HashPassword idKey p salt hs hh]
    exact ⟨_, rfl⟩

/-- Witness for C10 at a concrete password, salt, verifying password and
hash primitive. -/
theorem HashPassword_output_parses_witness :
    rawStdDecode ((stringsSplit '$' (HashPassword sampleIdKey [104, 105] [0, 255, 7])).getD 4 [])
      = some [0, 255, 7] ∧
    ∃ b, VerifyPassword sampleIdKey [120] (HashPassword sampleIdKey [104, 105] [0, 255, 7])
      = .ok b :=
  ⟨(HashPassword_output_parses sampleIdKey [104, 105] [0, 255, 7]
      (by decide) (by decide)).2.2.1,
   (HashPassword_output_parses sampleIdKey [104, 105] [0, 255, 7]
      (by decide) (by decide)).2.2.2.2 [120]⟩

/-- C3 amended: on every encoded string that parses, `VerifyPassword`
recomputes the hash with the fixed compile-time cost parameters
(iterations 2, memory 19456 KiB, parallelism 1, key length 32) and the
stored salt — the cost-parameter field of the encoded string is never
read — and compares with the constant-time byte comparison. -/
theorem VerifyPassword_uses_fixed_params (idKey : IDKeyFun) (p : List Nat)
    (enc : List Char) (salt hash : List Nat)
    (h : parseEncodedHash enc = .ok (salt, hash)) :
    VerifyPassword idKey p enc =
      .ok (constantTimeCompare hash (idKey p salt 2 19456 1 32) == 1) := by
  unfold VerifyPassword
  rw [h]
  rfl

/-- Witness for the amended C3 at a concrete input. -/
theorem VerifyPassword_uses_fixed_params_witness :
    VerifyPassword sampleIdKey [1] (HashPassword sampleIdKey [1] [2]) =
      .ok (constantTimeCompare (sampleIdKey [1] [2] 2 19456 1 32)
            (sampleIdKey [1] [2] 2 19456 1 32) == 1) :=
  VerifyPassword_uses_fixed_params sampleIdKey [1] (HashPassword sampleIdKey [1] [2])
    [2] (sampleIdKey [1] [2] 2 19456 1 32) (by decide)

/-- C3 counterexample: on `cexEncoded` (which parses successfully) the
code's `VerifyPassword` rejects while a verifier recomputing with the
*stored* cost parameters (as the claim describes) accepts: the code does
not use the stored cost parameters. -/
theorem VerifyPassword_stored_params_cex :
    parseEncodedHash cexEncoded = .ok ([1, 2, 3], [1, 8, 1]) ∧
    VerifyPassword paramIdKey [] cexEncoded = .ok false ∧
    VerifyPasswordStoredParams paramIdKey [] cexEncoded = .ok true := by decide

/-- C4 amended: for every password, `VerifyPassword` fails (never
succeeds, and all field accesses are guarded by the length test) on
every malformed encoding, but only the wrong-field-count, wrong-tag and
empty-string cases produce `ErrInvalidFormat`; invalid base64 in the
salt or hash field produces the distinct wrapped decoding errors. -/
theorem VerifyPassword_malformed (idKey : IDKeyFun) (p : List Nat) (enc : List Char) :
    ((stringsSplit '$' enc).length ≠ 6 →
      VerifyPassword idKey p enc = .error .invalidFormat) ∧
    ((stringsSplit '$' enc).getD 1 [] ≠ argon2idTag →
      VerifyPassword idKey p enc = .error .invalidFormat) ∧
    ((stringsSplit '$' enc).length = 6 →
      (stringsSplit '$' enc).getD 1 [] = argon2idTag →
      rawStdDecode ((stringsSplit '$' enc).getD 4 []) = none →
      VerifyPassword idKey p enc = .error .saltDecode) ∧
    (∀ salt, (stringsSplit '$' enc).length = 6 →
      (stringsSplit '$' enc).getD 1 [] = argon2idTag →
      rawStdDecode ((stringsSplit '$' enc).getD 4 []) = some salt →
      rawStdDecode ((stringsSplit '$' enc).getD 5 []) = none →
      VerifyPassword idKey p enc = .error .hashDecode) ∧
    (enc = [] → VerifyPassword idKey p enc = .error .invalidFormat) := by
  refine ⟨?_, ?_, ?_, ?_, ?_⟩
  · intro hlen
    unfold VerifyPassword parseEncodedHash
    simp [hlen]
  · intro htag
    unfold VerifyPassword parseEncodedHash
    by_cases hlen : (stringsSplit '$' enc).length = 6
    · rw [List.getD_eq_getElem _ _ (by omega)] at htag
      simp [hlen, htag]
    · simp [hlen]
  · intro hlen htag hsalt
    unfold VerifyPassword parseEncodedHash
    rw [List.getD_eq_getElem _ _ (by omega)] at htag
    rw [List.getD_eq_getElem _ _ (by omega)] at hsalt
    simp [hlen, htag, hsalt]
  · intro salt hlen htag hsalt hhash
    unfold VerifyPassword parseEncodedHash
    rw [List.getD_eq_getElem _ _ (by omega)] at htag
    rw [List.getD_eq_getElem _ _ (by omega)] at hsalt
    rw [List.getD_eq_getElem _ _ (by omega)] at hhash
    simp [hlen, htag, hsalt, hhash]
  · intro henc
    subst henc
    unfold VerifyPassword parseEncodedHash
    simp [stringsSplit]

/-- Witness for the amended C4: all five malformed classes evaluated at
concrete inputs through the theorem. -/
theorem VerifyPassword_malformed_witness :
    VerifyPassword sampleIdKey [7] ['a','b','c'] = .error .invalidFormat ∧
    VerifyPassword sampleIdKey [7] wrongTagEnc = .error .invalidFormat ∧
    VerifyPassword sampleIdKey [7] badSaltEnc = .error .saltDecode ∧
    VerifyPassword sampleIdKey [7] badHashEnc = .error .hashDecode ∧
    VerifyPassword sampleIdKey [7] [] = .error .invalidFormat :=
  ⟨(VerifyPassword_malformed sampleIdKey [7] ['a','b','c']).1 (by decide),
   (VerifyPassword_malformed sampleIdKey [7] wrongTagEnc).2.1 (by decide),
   (VerifyPassword_malformed sampleIdKey [7] badSaltEnc).2.2.1 (by decide) (by decide) (by decide),
   (VerifyPassword_malformed sampleIdKey [7] badHashEnc).2.2.2.1 [1] (by decide) (by decide)
     (by decide) (by decide),
   (VerifyPassword_malformed sampleIdKey [7] []).2.2.2.2 rfl⟩

/-- C4 counterexample: invalid base64 in the salt (or hash) field does
NOT produce the `ErrInvalidFormat` error — it produces the wrapped
base64 decoding error, a different error value — so the claim that all
five malformed classes yield the FormatError error fails. -/
theorem VerifyPassword_malformed_cex :
    VerifyPassword sampleIdKey [] badSaltEnc = .error .saltDecode ∧
    VerifyPassword sampleIdKey [] badSaltEnc ≠ .error .invalidFormat ∧
    VerifyPassword sampleIdKey [] badHashEnc = .error .hashDecode ∧
    VerifyPassword sampleIdKey [] badHashEnc ≠ .error .invalidFormat := by decide

/-- C5 amended: `Clear()` always leaves the buffer at length 0 with
every byte *within the pre-Clear length* zeroed; only those bytes are
overwritten (bytes of the backing array beyond the current length, left
behind by earlier truncations, are not rewritten). -/
theorem SecureBuffer_Clear_zeroes (sb : SecureBuffer) :
    sb.Clear.len = 0 ∧ ∀ i, i < sb.len → sb.Clear.storage.getD i 1 = 0 := by
  refine ⟨rfl, fun i hi => ?_⟩
  show (writeAt sb.storage 0 (List.replicate sb.len 0)).getD i 1 = 0
  unfold writeAt
  rw [List.take_zero, List.nil_append]
  rw [List.getD_eq_getElem _ _ (by
    rw [List.length_append, List.length_replicate]
    omega)]
  rw [List.getElem_append_left (by rw [List.length_replicate]; exact hi)]
  exact List.getElem_replicate ..

/-- Witness for the amended C5 on a concrete reachable buffer. -/
theorem SecureBuffer_Clear_zeroes_witness :
    (runOps [BufOp.rune 97, BufOp.rune 98, BufOp.backspace]).Clear.len = 0 ∧
    (runOps [BufOp.rune 97, BufOp.rune 98, BufOp.backspace]).Clear.storage.getD 0 1 = 0 :=
  ⟨(SecureBuffer_Clear_zeroes _).1,
   (SecureBuffer_Clear_zeroes (runOps [BufOp.rune 97, BufOp.rune 98, BufOp.backspace])).2 0
     (by decide)⟩

/-- C5 counterexample: append 'a', append 'b', one backspace (length now
1, the byte 'b' = 98 still sits in the backing array past the length),
then `Clear()`: the backing array still holds the nonzero byte 98, so
not every byte of the underlying storage is zero. -/
theorem SecureBuffer_Clear_cex :
    (runOps [BufOp.rune 97, BufOp.rune 98, BufOp.backspace]).Clear.len = 0 ∧
    (runOps [BufOp.rune 97, BufOp.rune 98, BufOp.backspace]).Clear.storage = [0, 98] ∧
    ¬ (∀ b ∈ (runOps [BufOp.rune 97, BufOp.rune 98, BufOp.backspace]).Clear.storage,
        b = 0) := by decide

theorem IsArrowMarkerSuffix_removeLen_pos (d : List Nat) :
    0 < (IsArrowMarkerSuffix d).2 := by
  unfold IsArrowMarkerSuffix
  split_ifs
  · norm_num
  · dsimp only
    split <;> norm_num

theorem Backspace_len_lt (sb : SecureBuffer) (h : sb.len ≠ 0) :
    sb.Backspace.1.len < sb.len := by
  have hp := IsArrowMarkerSuffix_removeLen_pos sb.Bytes
  unfold SecureBuffer.Backspace
  rcases hAB : IsArrowMarkerSuffix sb.Bytes with ⟨fl, rl⟩
  rw [hAB] at hp
  simp only at hp
  simp only [h, if_false, hAB]
  cases fl <;> simp <;> omega

theorem backspaceN_len_zero (n : Nat) (sb : SecureBuffer) (h : sb.len ≤ n) :
    (backspaceN n sb).len = 0 := by
  induction n generalizing sb with
  | zero =>
    have : sb.len = 0 := Nat.le_zero.mp h
    simpa [backspaceN] using this
  | succ n ih =>
    rw [backspaceN]
    by_cases h0 : sb.len = 0
    · have hb : sb.Backspace = (sb, false) := by
        unfold SecureBuffer.Backspace
        simp [h0]
      rw [hb]
      exact ih sb (by omega)
    · exact ih _ (by have := Backspace_len_lt sb h0; omega)

theorem foldl_appendRune_len (rs : List Nat) (sb : SecureBuffer)
    (h : ∀ r ∈ rs, r < 128) :
    (List.foldl applyOp sb (rs.map BufOp.rune)).len = sb.len + rs.length := by
  induction rs generalizing sb with
  | nil => simp
  | cons r rs ih =>
    have hr : r < 128 := h r (by simp)
    simp only [List.map_cons, List.foldl_cons]
    rw [ih _ (fun x hx => h x (by simp [hx]))]
    show (sb.AppendRune r).len + rs.length = sb.len + (rs.length + 1)
    unfold SecureBuffer.AppendRune SecureBuffer.Append
    simp [utf8EncodeRune, hr]
    omega

/-- C7 amended: appending N single-byte characters (code points below
U+0080, which UTF-8 encodes in one byte) to a fresh buffer and then
backspacing N times returns the buffer to length 0. (Each Backspace
removes one byte, or two when they form an arrow marker, so N
backspaces exhaust the N appended bytes.) -/
theorem appendN_backspaceN (rs : List Nat) (h : ∀ r ∈ rs, r < 128) :
    (backspaceN rs.length (runOps (rs.map BufOp.rune))).len = 0 := by
  apply backspaceN_len_zero
  rw [runOps, foldl_appendRune_len rs NewSecureBuffer h]
  simp [NewSecureBuffer]

/-- Witness for the amended C7 on three concrete characters (including
a NUL+SOH pair that Backspace removes as one two-byte marker unit —
the count still reaches zero because a backspace on the emptied buffer
is a no-op). -/
theorem appendN_backspaceN_witness :
    (backspaceN 3 (runOps ([97, 0, 1].map BufOp.rune))).len = 0 := by
  have := appendN_backspaceN [97, 0, 1] (by decide)
  simpa using this

/-- C7 counterexample: one multi-byte character breaks the claim.
Appending 'é' (U+00E9, two UTF-8 bytes) and backspacing once leaves one
byte in the buffer, not zero. -/
theorem appendN_backspaceN_cex :
    (backspaceN 1 (runOps [BufOp.rune 233])).len = 1 ∧
    (backspaceN 1 (runOps [BufOp.rune 233])).len ≠ 0 := by decide

/-- C9 amended: `GetTmuxSocketPath` returns `ErrNoTmuxSocket` exactly
when the `TMUX` value reads as empty — whether the variable is unset or
set to the empty string (via `os.Getenv`, the code cannot tell the two
apart) — and `ErrInvalidTmuxSocket` exactly when the value is nonempty
with an empty first comma-field; otherwise it returns the first field.
An empty-but-set descriptor is thus reported as missing, never as
malformed. -/
theorem GetTmuxSocketPath_spec (tmuxVar : Option (List Char)) :
    (GetTmuxSocketPath tmuxVar = .error .noTmuxSocket ↔ osGetenv tmuxVar = []) ∧
    (GetTmuxSocketPath tmuxVar = .error .invalidTmuxSocket ↔
      (osGetenv tmuxVar ≠ [] ∧ (stringsSplit ',' (osGetenv tmuxVar)).getD 0 [] = [])) ∧
    (osGetenv tmuxVar ≠ [] →
      (stringsSplit ',' (osGetenv tmuxVar)).getD 0 [] ≠ [] →
      GetTmuxSocketPath tmuxVar = .ok ((stringsSplit ',' (osGetenv tmuxVar)).getD 0 [])) := by
  obtain ⟨p0, ps, hps⟩ : ∃ a l, stringsSplit ',' (osGetenv tmuxVar) = a :: l := by
    cases hsp : stringsSplit ',' (osGetenv tmuxVar) with
    | nil => exact absurd hsp (stringsSplit_ne_nil ',' (osGetenv tmuxVar))
    | cons a l => exact ⟨a, l, rfl⟩
  refine ⟨?_, ?_, ?_⟩
  · unfold GetTmuxSocketPath
    by_cases he : osGetenv tmuxVar = []
    · simp [he]
    · simp only [he, if_false, hps]
      by_cases hf : p0 = [] <;> simp [hf, he]
  · unfold GetTmuxSocketPath
    by_cases he : osGetenv tmuxVar = []
    · simp [he]
    · simp only [he, if_false, hps]
      by_cases hf : p0 = [] <;> simp [hf, he]
  · intro he hf
    unfold GetTmuxSocketPath
    rw [hps] at hf
    simp only [List.getD_cons_zero] at hf
    simp [hps, he, hf]

/-- Witness for the amended C9 on a concrete descriptor value. -/
theorem GetTmuxSocketPath_spec_witness :
    GetTmuxSocketPath (some ['/','t','m','p','/','s',',','1']) = .ok ['/','t','m','p','/','s'] :=
  (GetTmuxSocketPath_spec (some ['/','t','m','p','/','s',',','1'])).2.2 (by decide) (by decide)

/-- C9 counterexample: `TMUX` set (present) but equal to the empty
string — the descriptor is empty yet not absent, so the claim demands
`MalformedDescriptor`; the code returns `ErrNoTmuxSocket` (missing). -/
theorem GetTmuxSocketPath_cex :
    GetTmuxSocketPath (some []) = .error .noTmuxSocket ∧
    GetTmuxSocketPath (some []) ≠ .error .invalidTmuxSocket := by decide

/-- C8: `IsLocked` is true exactly when the record exists, its contents
parse, and the parsed record's locked flag is true; every failure mode
(path error, missing file, unreadable file, corrupt contents) yields
false rather than an error. -/
theorem IsLocked_iff (parse : List Char → Option LockState) (f : FileRead) :
    (IsLocked parse f = true ↔
      ∃ s st, f = .contents s ∧ parse s = some st ∧ st.locked = true) ∧
    IsLocked parse .pathError = false ∧
    IsLocked parse .absent = false ∧
    IsLocked parse .readError = false ∧
    (∀ s, parse s = none → IsLocked parse (.contents s) = false) := by
  refine ⟨?_, rfl, rfl, rfl, ?_⟩
  · cases f with
    | pathError => simp [IsLocked, LoadState]
    | absent => simp [IsLocked, LoadState]
    | readError => simp [IsLocked, LoadState]
    | contents s =>
      cases hp : parse s with
      | none => simp [IsLocked, LoadState, hp]
      | some st =>
        simp only [IsLocked, LoadState, hp]
        constructor
        · intro hl
          exact ⟨s, st, rfl, hp, hl⟩
        · rintro ⟨s2, st2, heq, hp2, hl2⟩
          cases heq
          rw [hp] at hp2
          cases hp2
          exact hl2
  · intro s hp
    simp [IsLocked, LoadState, hp]

/-- C1 amended: when the lock session ends by successful password
verification, execLock's deferred release effects run in Go's LIFO
defer order — the ledger record is deleted FIRST, and the socket
permission is restored to the saved original mode SECOND (the opposite
of the claimed order). -/
theorem execLock_release_order (o : SysOracle) (w : World) (path : List Char)
    (hpw : o.passwordExists = true)
    (hpath : GetTmuxSocketPath o.tmuxEnv = .ok path)
    (hex : w.socketExists = true)
    (hr : o.chmodRestrictFails = false)
    (hwr : o.ledgerWriteFails = false)
    (hrm : o.ledgerRemoveFails = false)
    (hrs : o.chmodRestoreFails = false)
    (hs : o.screensaverFails = false) :
    execLock true o w =
      (.ok (), { w with ledger := none },
        [Effect.chmod path 0,
         Effect.ledgerWrite ⟨true, o.now, path, w.socketMode⟩,
         Effect.ledgerRemove,
         Effect.chmod path w.socketMode]) := by
  have he : ¬ (osGetenv o.tmuxEnv = []) := by
    intro he
    unfold GetTmuxSocketPath at hpath
    simp [he] at hpath
  unfold execLock
  simp [hpw, he, hpath, RestrictSocket, hex, hr, LedgerLock, hwr, screensaverOutcome,
    hs, deferredUnlock, LedgerUnlock, hrm, deferredRestore, RestoreSocket, hrs]

/-- Witness for the amended C1 at a concrete oracle and world. -/
theorem execLock_release_order_witness :
    execLock true okOracle baseWorld =
      (.ok (), { baseWorld with ledger := none },
        [Effect.chmod ['/','s'] 0,
         Effect.ledgerWrite ⟨true, 5, ['/','s'], 448⟩,
         Effect.ledgerRemove,
         Effect.chmod ['/','s'] 448]) := by
  have h := execLock_release_order okOracle baseWorld ['/','s']
    (by decide) (by decide) (by decide) (by decide) (by decide) (by decide)
    (by decide) (by decide)
  simpa using h

/-- C1 counterexample: on a fully successful lock/unlock episode the
effect trace is restrict, ledger write, ledger REMOVE, chmod RESTORE —
the restore does not precede the removal, refuting the claimed release
order. -/
theorem execLock_release_order_cex :
    (execLock true okOracle baseWorld).1 = .ok () ∧
    (execLock true okOracle baseWorld).2.2 =
      [Effect.chmod ['/','s'] 0,
       Effect.ledgerWrite ⟨true, 5, ['/','s'], 448⟩,
       Effect.ledgerRemove,
       Effect.chmod ['/','s'] 448] ∧
    restoreBeforeRemove (execLock true okOracle baseWorld).2.2 ['/','s'] 448 = false := by
  decide

/-- C2: with socket protection on, when restricting succeeds and the
ledger write then fails, execLock runs the deferred restore with the
already-captured original permission before returning the error: the
trace is exactly chmod-to-0 then chmod-back, the returned error is the
lock-state failure, and the final world equals the initial one (no
ledger record, socket mode back at its pre-restrict value). -/
theorem execLock_unwind_on_write_failure (o : SysOracle) (w : World) (path : List Char)
    (hpw : o.passwordExists = true)
    (hpath : GetTmuxSocketPath o.tmuxEnv = .ok path)
    (hex : w.socketExists = true)
    (hr : o.chmodRestrictFails = false)
    (hwr : o.ledgerWriteFails = true)
    (hrs : o.chmodRestoreFails = false) :
    execLock true o w =
      (.error .lockStateFailed, w,
        [Effect.chmod path 0, Effect.chmod path w.socketMode]) := by
  have he : ¬ (osGetenv o.tmuxEnv = []) := by
    intro he
    unfold GetTmuxSocketPath at hpath
    simp [he] at hpath
  unfold execLock
  simp [hpw, he, hpath, RestrictSocket, hex, hr, LedgerLock, hwr,
    deferredRestore, RestoreSocket, hrs]
  rw [← hex]

/-- Witness for C2 at a concrete oracle and world. -/
theorem execLock_unwind_on_write_failure_witness :
    execLock true writeFailOracle baseWorld =
      (.error .lockStateFailed, baseWorld,
        [Effect.chmod ['/','s'] 0, Effect.chmod ['/','s'] 448]) := by
  have h := execLock_unwind_on_write_failure writeFailOracle baseWorld ['/','s']
    (by decide) (by decide) (by decide) (by decide) (by decide) (by decide)
  simpa using h

/-- Witness for C8: a record that parses with the locked flag reads as
locked; corrupt contents read as not locked. -/
theorem IsLocked_iff_witness :
    IsLocked sampleParse (.contents ['x']) = true ∧
    IsLocked sampleParse (.contents ['y']) = false :=
  ⟨(IsLocked_iff sampleParse (.contents ['x'])).1.mpr
      ⟨['x'], ⟨true, 0, [], 0⟩, rfl, by decide, rfl⟩,
   (IsLocked_iff sampleParse (.contents ['y'])).2.2.2.2 ['y'] (by decide)⟩
